import Mathlib

/-!
Shallow embedding of the `typerplus` command-pipeline core:

* `annotation.py` — `_strip_optional`, `TyperAnnotation` (here `TyperAnnot`),
  its metadata helpers and `rebuild`;
* `types.py` — `InvocationCall`, `Invocation.resolve_call_arguments`,
  `Invocation.command_context`;
* `pipeline.py` — `_create_param_type_hook`, `_apply_virtual_parameters`,
  `_ensure_invocation_context_parameter`, `Pipeline.build` (middleware chain
  and adapter state recording), `Pipeline.register_param_type`,
  `Pipeline.add_virtual_option`;
* `parser/logger.py` — `LoggerParser._coerce_level`, `_level_from_count`.

Python runtime values are modelled by the inductive `Value`; Python dicts by
insertion-ordered association lists with Python `dict` semantics (`dictGet`,
`dictSet`, `dictPop`, `dictUpdate`); Python type expressions (the results of
subscripting `typing.Optional` / `typing.Union` / `X | Y` / `typing.Annotated`)
by the inductive `PyAnnot`, with the CPython normalisation (flattening,
deduplication, collapse of a one-armed union) performed by the constructors
`mkTUnion` / `pyOr` / `pyOptional`, exactly as the Python interpreter performs
it at subscription time.
-/

/-- A Python runtime value, as far as the pipeline core distinguishes them:
ints, bools, strings, `None`, the `inspect.Signature.empty` sentinel, and
`InvocationContext` instances identified by an allocation id. -/
inductive Value where
  | vint (n : Int)
  | vbool (b : Bool)
  | vstr (s : String)
  | vnone
  | empty
  | ctxRef (id : Nat)
deriving DecidableEq, Repr

/-- A Python `dict` with `String` keys: an insertion-ordered association list
with pairwise-distinct keys maintained by the operations below. -/
abbrev Dict (α : Type) := List (String × α)

/-- Python `k in d` membership for a dict. -/
def dictMem {α : Type} : Dict α → String → Bool
  | [], _ => false
  | e :: d, k => e.1 == k || dictMem d k

/-- Python `d.get(k)` / `d[k]` lookup for a dict. -/
def dictGet {α : Type} : Dict α → String → Option α
  | [], _ => none
  | e :: d, k => if e.1 = k then some e.2 else dictGet d k

/-- Python `d.pop(k, None)` (also `del d[k]`): remove the entry for `k`, if any. -/
def dictPop {α : Type} : Dict α → String → Dict α
  | [], _ => []
  | e :: d, k => if e.1 = k then dictPop d k else e :: dictPop d k

/-- Python `d[k] = v`: replace in place when the key exists (keeping its
position — Python dicts preserve insertion order on update), else append. -/
def dictSet {α : Type} : Dict α → String → α → Dict α
  | [], k, v => [(k, v)]
  | e :: d, k, v => if e.1 = k then (k, v) :: d else e :: dictSet d k v

/-- Python `d.update(other)`: `d[k] = v` for each entry of `other` in order. -/
def dictUpdate {α : Type} (d other : Dict α) : Dict α :=
  other.foldl (fun acc e => dictSet acc e.1 e.2) d

/-- Model of `typer.models.ParameterInfo` (an option descriptor), reduced to the two
fields the pipeline core reads and writes: `default` and `click_type`. -/
structure ParameterInfo where
  default : Value
  click_type : Option String
deriving DecidableEq, Repr

/-- One item of `typing.Annotated` metadata: either an option descriptor
(`ParameterInfo`) or some other opaque metadata object. -/
inductive PyMeta where
  | info (p : ParameterInfo)
  | other (tag : String)
deriving DecidableEq, Repr

/-- A Python type expression as it exists at runtime, after CPython has
normalised any `typing` subscription: `NoneType`, a plain class (named),
a string / forward reference, a `typing.Union[...]` object, a
`types.UnionType` object (`X | Y`), a `typing.Annotated[...]` object, or the
absent-annotation sentinel `inspect.Signature.empty`. -/
inductive PyAnnot where
  | empty
  | noneType
  | cls (name : String)
  | strA (s : String)
  | tunion (args : List PyAnnot)
  | pipeUnion (args : List PyAnnot)
  | annotated (base : PyAnnot) (metadata : List PyMeta)

/-- Structural (Python `is`-like on our model) equality test for `PyAnnot`;
the nested inductive prevents deriving `DecidableEq`, so it is hand-rolled. -/
def PyAnnot.beq : PyAnnot → PyAnnot → Bool
  | .empty, .empty => true
  | .noneType, .noneType => true
  | .cls a, .cls b => a == b
  | .strA a, .strA b => a == b
  | .tunion as, .tunion bs => go as bs
  | .pipeUnion as, .pipeUnion bs => go as bs
  | .annotated b1 m1, .annotated b2 m2 => PyAnnot.beq b1 b2 && m1 == m2
  | _, _ => false
where go : List PyAnnot → List PyAnnot → Bool
  | [], [] => true
  | a :: as, b :: bs => PyAnnot.beq a b && go as bs
  | _, _ => false

theorem PyAnnot.beq_eq_aux :
    ∀ (n : Nat) (a b : PyAnnot), sizeOf a ≤ n → (PyAnnot.beq a b = true ↔ a = b) := by
  intro n
  induction n with
  | zero =>
    intro a b h
    cases a <;> simp_arith at h
  | succ n ih =>
    intro a b h
    cases a with
    | empty => cases b <;> simp [PyAnnot.beq]
    | noneType => cases b <;> simp [PyAnnot.beq]
    | cls x => cases b <;> simp [PyAnnot.beq]
    | strA x => cases b <;> simp [PyAnnot.beq]
    | annotated b1 m1 =>
      cases b <;> simp [PyAnnot.beq]
      case annotated b2 m2 =>
        have h1 : sizeOf b1 ≤ n := by simp_arith at h; omega
        simp [ih b1 b2 h1]
    | tunion as =>
      cases b <;> simp [PyAnnot.beq]
      case tunion bs =>
        have hsz : sizeOf as ≤ n := by simp_arith at h; omega
        clear h
        induction as generalizing bs with
        | nil => cases bs <;> simp [PyAnnot.beq.go]
        | cons a as ihl =>
          cases bs with
          | nil => simp [PyAnnot.beq.go]
          | cons b bs =>
            have ha : sizeOf a ≤ n := by simp_arith at hsz; omega
            have has : sizeOf as ≤ n := by simp_arith at hsz; omega
            simp [PyAnnot.beq.go, ih a b ha, ihl bs has]
    | pipeUnion as =>
      cases b <;> simp [PyAnnot.beq]
      case pipeUnion bs =>
        have hsz : sizeOf as ≤ n := by simp_arith at h; omega
        clear h
        induction as generalizing bs with
        | nil => cases bs <;> simp [PyAnnot.beq.go]
        | cons a as ihl =>
          cases bs with
          | nil => simp [PyAnnot.beq.go]
          | cons b bs =>
            have ha : sizeOf a ≤ n := by simp_arith at hsz; omega
            have has : sizeOf as ≤ n := by simp_arith at hsz; omega
            simp [PyAnnot.beq.go, ih a b ha, ihl bs has]

theorem PyAnnot.beq_eq (a b : PyAnnot) : PyAnnot.beq a b = true ↔ a = b :=
  PyAnnot.beq_eq_aux (sizeOf a) a b (Nat.le_refl _)

instance : DecidableEq PyAnnot :=
  fun a b => decidable_of_iff (PyAnnot.beq a b = true) (PyAnnot.beq_eq a b)

instance : BEq PyAnnot := ⟨PyAnnot.beq⟩

instance : LawfulBEq PyAnnot where
  eq_of_beq h := (PyAnnot.beq_eq _ _).mp h
  rfl := (PyAnnot.beq_eq _ _).mpr rfl

/-- The members a type expression contributes to a union: unions are
flattened, anything else is a single member (CPython flattens nested unions
at subscription time, for both `typing.Union` and `X | Y`). -/
def unionMembers : PyAnnot → List PyAnnot
  | .tunion args => args
  | .pipeUnion args => args
  | a => [a]

/-- CPython union deduplication: keep the first occurrence of each member. -/
def dedupAnnots (xs : List PyAnnot) : List PyAnnot :=
  xs.foldl (fun acc x => if acc.contains x then acc else acc ++ [x]) []

/-- Subscription `typing.Union[args...]`: flatten, deduplicate, collapse a one-armed
union to its single member (CPython: `Union[X] is X`). -/
def mkTUnion (args : List PyAnnot) : PyAnnot :=
  match dedupAnnots (args.map unionMembers).flatten with
  | [a] => a
  | as => .tunion as

/-- The `|` operator on type objects (`operator.or_`): flatten both sides,
deduplicate, collapse a one-armed result (CPython: `X | X is X`). -/
def pyOr (a b : PyAnnot) : PyAnnot :=
  match dedupAnnots (unionMembers a ++ unionMembers b) with
  | [x] => x
  | as => .pipeUnion as

/-- Subscription `typing.Optional[t]`, which CPython evaluates to `Union[t, None]`. -/
def pyOptional (t : PyAnnot) : PyAnnot :=
  mkTUnion [t, .noneType]

/-- Subscription `typing.Annotated[t, *meta]`; CPython flattens nested `Annotated`. -/
def mkAnnotated (t : PyAnnot) (meta : List PyMeta) : PyAnnot :=
  match t with
  | .annotated b m => .annotated b (m ++ meta)
  | _ => .annotated t meta

/-- What `typing.get_origin` can return on the expressions we model. CPython
never returns `typing.Optional` itself (an `Optional[...]` subscription is a
`Union[...]` object), but `_strip_optional` tests for it, so the tag exists. -/
inductive TypingOrigin where
  | union
  | unionType
  | annotatedO
  | optionalO
  | noneO
deriving DecidableEq, Repr

/-- Model of `typing.get_origin`. -/
def get_origin : PyAnnot → TypingOrigin
  | .tunion _ => .union
  | .pipeUnion _ => .unionType
  | .annotated _ _ => .annotatedO
  | _ => .noneO

/-- Model of `typing.get_args`, restricted to the union shapes `_strip_optional`
reads (for `Annotated` the source destructures base and metadata directly,
which the embedding does by pattern matching in `TyperAnnot.ofAnnot`). -/
def get_args : PyAnnot → List PyAnnot
  | .tunion args => args
  | .pipeUnion args => args
  | _ => []

/-- Function `annotation._strip_optional`: return `(inner_type, was_optional)` for
`Optional` / `Union[..., None]` annotations.  Faithful to the source: the
`typing.Optional` origin branch, the union branch that filters `NoneType`
members (`arg is not type(None)`), the empty / singleton cases, and
`reduce(or_, non_none)` for a remaining multi-armed union. -/
def _strip_optional (annot : PyAnnot) : PyAnnot × Bool :=
  let origin := get_origin annot
  let args := get_args annot
  if origin = .optionalO then
    (args.headD annot, true)
  else if origin = .union ∨ origin = .unionType then
    let non_none := args.filter (fun a => a != .noneType)
    let optional := decide (non_none.length < args.length)
    if non_none.isEmpty then (annot, optional)
    else if non_none.length = 1 then (non_none.headD annot, optional)
    else (non_none.tail.foldl pyOr (non_none.headD annot), optional)
  else
    (annot, false)

/-- Class `annotation.TyperAnnotation` (renamed): the decomposed view of a
parameter annotation — whether it was `Annotated`, the unwrapped base type,
the metadata tuple, and the optional flag. -/
structure TyperAnnot where
  origAnnot : PyAnnot
  annotated : Bool
  type : PyAnnot
  annots : List PyMeta
  optional : Bool
deriving DecidableEq

/-- Constructor `TyperAnnotation.__init__`: unwrap an `Annotated` envelope (recording
its metadata), then strip optionality from the base annotation. -/
def TyperAnnot.ofAnnot (annot : PyAnnot) : TyperAnnot :=
  let (base, isAnn, meta) :=
    match annot with
    | .annotated b m => (b, true, m)
    | a => (a, false, ([] : List PyMeta))
  let (unwrapped, opt) := _strip_optional base
  { origAnnot := annot, annotated := isAnn, type := unwrapped,
    annots := meta, optional := opt }

/-- Generator `TyperAnnotation.find_parameter_info_arg` composed with `next(_, None)`
as the pipeline uses it: the first `ParameterInfo` among the metadata. -/
def TyperAnnot.find_parameter_info_arg (t : TyperAnnot) : Option ParameterInfo :=
  t.annots.findSome? (fun m => match m with | .info p => some p | .other _ => none)

/-- Method `TyperAnnotation.metadata_without_parameter_info`. -/
def TyperAnnot.metadata_without_parameter_info (t : TyperAnnot) : List PyMeta :=
  t.annots.filter (fun m => match m with | .info _ => false | .other _ => true)

/-- Method `TyperAnnotation.rebuild`: keyword arguments become `Option` parameters
(passed positionally), `None` meaning "keep the stored component"; wrap with
`Optional` when the optional flag is on, and with `Annotated` when the
metadata tuple is non-empty. -/
def TyperAnnot.rebuild (t : TyperAnnot) (annotType : Option PyAnnot)
    (annots : Option (List PyMeta)) (opt : Option Bool) : PyAnnot :=
  let typ := annotType.getD t.type
  let use_optional := opt.getD t.optional
  let typ := if use_optional then pyOptional typ else typ
  let metadata := annots.getD t.annots
  if metadata.isEmpty then typ else mkAnnotated typ metadata

/-- Equality of union argument lists as CPython compares unions: as sets of
members (`Union[int, str] == str | int` is `True`). -/
def unionArgsEquiv (as bs : List PyAnnot) : Bool :=
  as.all (fun a => bs.contains a) && bs.all (fun b => as.contains b)

/-- Python `==` on type expressions: `typing.Union` and `types.UnionType`
objects compare equal when their member sets agree (in either combination);
`Annotated` compares base and metadata; everything else structurally. -/
def annotEquiv (a b : PyAnnot) : Bool :=
  match a, b with
  | .tunion as, .tunion bs => unionArgsEquiv as bs
  | .tunion as, .pipeUnion bs => unionArgsEquiv as bs
  | .pipeUnion as, .tunion bs => unionArgsEquiv as bs
  | .pipeUnion as, .pipeUnion bs => unionArgsEquiv as bs
  | .annotated b1 m1, .annotated b2 m2 => annotEquiv b1 b2 && m1 == m2
  | x, y => x == y

/-- Model of `inspect.Parameter.kind`. -/
inductive ParamKind where
  | positionalOnly
  | positionalOrKeyword
  | varPositional
  | keywordOnly
  | varKeyword
deriving DecidableEq, Repr

/-- An `inspect.Parameter` default: absent (`inspect.Signature.empty`), a
plain value, or an option descriptor (virtual parameters use the
`ParameterInfo` itself as the default). -/
inductive PDefault where
  | empty
  | val (v : Value)
  | info (p : ParameterInfo)
deriving DecidableEq, Repr

/-- An `inspect.Parameter`: name, kind, annotation, default. -/
structure Param where
  name : String
  kind : ParamKind
  annot : PyAnnot
  default : PDefault
deriving DecidableEq

/-- Class `types.InvocationCall`: the args/kwargs Typer resolved for this call. -/
structure InvocationCall where
  args : List Value
  kwargs : Dict Value
deriving DecidableEq

/-- The callable handed to `Invocation` as `target`, reduced to the function
attributes `resolve_call_arguments` reads: the published signature
(`inspect.signature(target)`) and the three `__typerplus_*__` attributes
(`None` / `()` when never set). -/
structure Target where
  signature : List Param
  originalSig : Option (List Param)
  runtimeSig : Option (List Param)
  contextParamNames : List String
  virtualParamNames : List String
deriving DecidableEq

/-- Class `types.Invocation`, reduced to the fields the modelled methods touch:
the target's recorded metadata, the call, the shared state dict, and the
lazily-cached `_context` field (an `InvocationContext` identified by its
allocation id). -/
structure Invocation where
  target : Target
  call : InvocationCall
  state : Dict Value
  ctxCache : Option Nat
deriving DecidableEq

/-- Allocation bookkeeping for `InvocationContext` objects: Python object
identity is modelled by handing out fresh ids, and `created` counts how many
`InvocationContext.__init__` calls have happened. -/
structure CtxAlloc where
  nextId : Nat
  created : Nat
deriving DecidableEq

/-- Property `Invocation.command_context`: return the cached `InvocationContext`,
creating (and caching) it on first access. -/
def Invocation.command_context (inv : Invocation) (alloc : CtxAlloc) :
    Value × Invocation × CtxAlloc :=
  match inv.ctxCache with
  | some i => (.ctxRef i, inv, alloc)
  | none =>
      (.ctxRef alloc.nextId,
       { inv with ctxCache := some alloc.nextId },
       { nextId := alloc.nextId + 1, created := alloc.created + 1 })

/-- The mutable locals of the `resolve_call_arguments` parameter walk. -/
structure ResolveSt where
  idx : Nat
  kwargs_map : Dict Value
  final_args : List Value
  final_kwargs : Dict Value
deriving DecidableEq

/-- One iteration of the `for name, param in exec_sig.parameters.items()`
loop of `Invocation.resolve_call_arguments`, faithful to the branch order of
the source: context names, virtual names, `VAR_POSITIONAL`, `VAR_KEYWORD`,
`KEYWORD_ONLY`, then the positional kinds. -/
def resolveStep (context_names virtual_names : List String)
    (ctxVal : Value) (args_list : List Value)
    (st : ResolveSt) (param : Param) : ResolveSt :=
  if context_names.contains param.name then
    match param.kind with
    | .positionalOnly | .positionalOrKeyword =>
        { st with final_args := st.final_args ++ [ctxVal] }
    | _ =>
        { st with final_kwargs := dictSet st.final_kwargs param.name ctxVal }
  else if virtual_names.contains param.name then
    if (param.kind = .positionalOnly ∨ param.kind = .positionalOrKeyword)
        ∧ st.idx < args_list.length then
      { st with idx := st.idx + 1 }
    else st
  else
    match param.kind with
    | .varPositional =>
        if st.idx < args_list.length then
          { st with final_args := st.final_args ++ args_list.drop st.idx,
                    idx := args_list.length }
        else st
    | .varKeyword =>
        if st.kwargs_map.isEmpty then st
        else { st with final_kwargs := dictUpdate st.final_kwargs st.kwargs_map,
                       kwargs_map := [] }
    | .keywordOnly =>
        match dictGet st.kwargs_map param.name with
        | some v =>
            { st with final_kwargs := dictSet st.final_kwargs param.name v,
                      kwargs_map := dictPop st.kwargs_map param.name }
        | none => st
    | _ =>
        match dictGet st.kwargs_map param.name with
        | some v =>
            { st with final_kwargs := dictSet st.final_kwargs param.name v,
                      kwargs_map := dictPop st.kwargs_map param.name }
        | none =>
            match args_list.get? st.idx with
            | some v =>
                { st with final_args := st.final_args ++ [v], idx := st.idx + 1 }
            | none => st

/-- Method `Invocation.resolve_call_arguments`: reconstruct the `(args, kwargs)`
for the original callable.  Works on copies of the recorded call (here value
semantics; the aliasing-aware variant is `resolveHeap` below), strips
virtual names from the working kwargs, materialises the (cached) command
context, walks the recorded original signature, then merges any unconsumed
kwargs into the final keyword set. -/
def Invocation.resolve_call_arguments (inv : Invocation) (alloc : CtxAlloc) :
    (List Value × Dict Value) × Invocation × CtxAlloc :=
  let exec_sig := inv.target.originalSig.getD inv.target.signature
  let context_names := inv.target.contextParamNames
  let virtual_names := inv.target.virtualParamNames
  let args_list := inv.call.args
  let kwargs_map := virtual_names.foldl (fun m v => dictPop m v) inv.call.kwargs
  let (ctxVal, inv, alloc) := inv.command_context alloc
  let st := exec_sig.foldl
    (resolveStep context_names virtual_names ctxVal args_list)
    { idx := 0, kwargs_map := kwargs_map, final_args := [], final_kwargs := [] }
  let final_kwargs :=
    if st.kwargs_map.isEmpty then st.final_kwargs
    else dictUpdate st.final_kwargs st.kwargs_map
  ((st.final_args, final_kwargs), inv, alloc)

/-- What a parameter of the callee ends up bound to when Python executes the
reconstructed call: a plain value, a `*args` tuple, or a `**kwargs` dict. -/
inductive Binding where
  | single (v : Value)
  | star (vs : List Value)
  | dstar (d : Dict Value)
deriving DecidableEq

/-- Python's call-binding semantics `f(*args, **kwargs)` against a
signature (CPython argument binding): positional args fill the positional
parameters in order with overflow going to `*args`; keywords fill
positional-or-keyword and keyword-only parameters by name with leftovers
going to `**kwargs`; defaults fill the rest; a missing required parameter,
an unexpected keyword, or excess positional args raise `TypeError`. -/
def bindCall (sig : List Param) (args : List Value) (kwargs : Dict Value) :
    Except String (Dict Binding) :=
  let positional := sig.filter (fun p =>
    p.kind = .positionalOnly ∨ p.kind = .positionalOrKeyword)
  let hasVarPos := sig.any (fun p => p.kind == .varPositional)
  let hasVarKw := sig.any (fun p => p.kind == .varKeyword)
  if args.length > positional.length ∧ ¬hasVarPos then
    .error "too many positional arguments"
  else
    let step := fun (acc : Except String (Dict Binding × Dict Value × Nat)) (p : Param) =>
      match acc with
      | .error e => .error e
      | .ok (env, kw, i) =>
        match p.kind with
        | .varPositional => .ok (dictSet env p.name (.star (args.drop i)), kw, args.length)
        | .varKeyword => .ok (env, kw, i)
        | .keywordOnly =>
            match dictGet kw p.name with
            | some v => .ok (dictSet env p.name (.single v), dictPop kw p.name, i)
            | none =>
                match p.default with
                | .empty => .error ("missing required keyword-only argument " ++ p.name)
                | .val v => .ok (dictSet env p.name (.single v), kw, i)
                | .info _ => .ok (env, kw, i)
        | .positionalOnly =>
            match args.get? i with
            | some v => .ok (dictSet env p.name (.single v), kw, i + 1)
            | none =>
                match p.default with
                | .empty => .error ("missing required positional argument " ++ p.name)
                | .val v => .ok (dictSet env p.name (.single v), kw, i)
                | .info _ => .ok (env, kw, i)
        | .positionalOrKeyword =>
            match args.get? i with
            | some v =>
                if dictMem kw p.name then
                  .error ("multiple values for argument " ++ p.name)
                else .ok (dictSet env p.name (.single v), kw, i + 1)
            | none =>
                match dictGet kw p.name with
                | some v => .ok (dictSet env p.name (.single v), dictPop kw p.name, i)
                | none =>
                    match p.default with
                    | .empty => .error ("missing required argument " ++ p.name)
                    | .val v => .ok (dictSet env p.name (.single v), kw, i)
                    | .info _ => .ok (env, kw, i)
    match sig.foldl step (.ok ([], kwargs, 0)) with
    | .error e => .error e
    | .ok (env, kw, _) =>
        if hasVarKw then
          match sig.find? (fun p => p.kind == .varKeyword) with
          | some p => .ok (dictSet env p.name (.dstar kw))
          | none => .ok env
        else if kw.isEmpty then .ok env
        else .error "unexpected keyword argument"

/-! ### `parser/logger.py` — `LoggerParser`

Python `str` inputs are modelled as `List Char` so that `strip` / `upper` /
`isdigit` are explicit list programs with Python semantics (ASCII case
mapping; the repository only ever feeds ASCII level names). -/

/-- The `logging` module's level constants. -/
def CRITICAL : Int := 50
def ERROR : Int := 40
def WARNING : Int := 30
def INFO : Int := 20
def DEBUG : Int := 10
def NOTSET : Int := 0

/-- Python `str.isspace` on one character (the whitespace `str.strip`
removes by default). -/
def pyIsSpace (c : Char) : Bool :=
  c == ' ' || c == '\t' || c == '\n' || c == '\x0d' || c == '\x0b' || c == '\x0c'

/-- Python `str.strip()`. -/
def pyStrip (s : List Char) : List Char :=
  ((s.dropWhile pyIsSpace).reverse.dropWhile pyIsSpace).reverse

/-- Python `str.isdigit()` (ASCII digits; nonempty). -/
def pyIsDigit (s : List Char) : Bool :=
  !s.isEmpty && s.all (fun c => c.isDigit)

/-- Python `str.upper()` (ASCII mapping). -/
def pyUpper (s : List Char) : List Char :=
  s.map Char.toUpper

/-- Python `int(s)` on a string of digits. -/
def pyParseNat (s : List Char) : Nat :=
  s.foldl (fun n c => n * 10 + (c.toNat - 48)) 0

/-- Table `logging.getLevelNamesMapping()`: the standard name-to-level map. -/
def getLevelNamesMapping : List (List Char × Int) :=
  [("CRITICAL".toList, CRITICAL), ("FATAL".toList, CRITICAL),
   ("ERROR".toList, ERROR), ("WARN".toList, WARNING),
   ("WARNING".toList, WARNING), ("INFO".toList, INFO),
   ("DEBUG".toList, DEBUG), ("NOTSET".toList, NOTSET)]

/-- The runtime values `LoggerParser._coerce_level` can receive: an existing
`logging.Logger` (carrying its level), a string, an int (the count of a
counting flag; Python `float` inputs take the same `int(value)` path and are
not modelled separately), or any other unsupported object. -/
inductive LogValue where
  | logger (level : Int)
  | str (chars : List Char)
  | int (n : Int)
  | obj (tag : String)
deriving DecidableEq

/-- Method `LoggerParser._level_from_count`. -/
def _level_from_count (count : Int) : Int :=
  if count ≤ 0 then ERROR
  else if count = 1 then WARNING
  else if count = 2 then INFO
  else DEBUG

/-- Method `LoggerParser._coerce_level`: `Logger` values pass their level through;
strings are stripped, rejected when empty, parsed as counts when all digits
(raw level when above 4), else upper-cased and looked up in the level-name
table; ints map through `_level_from_count`; anything else fails. -/
def _coerce_level : LogValue → Except String Int
  | .logger lvl => .ok lvl
  | .str s =>
      let stripped := pyStrip s
      if stripped.isEmpty then .error "log level cannot be empty"
      else if pyIsDigit stripped then
        let number : Int := (pyParseNat stripped : Int)
        if number ≤ 4 then .ok (_level_from_count number) else .ok number
      else
        let upper := pyUpper stripped
        match (getLevelNamesMapping.find? (fun e => e.1 == upper)).map (fun e => e.2) with
        | some lvl => .ok lvl
        | none => .error "unknown log level"
  | .int n => .ok (_level_from_count n)
  | .obj _ => .error "unsupported log level value"

/-! ### `pipeline.py` — virtual options, context hiding, hooks, build -/

/-- Record `pipeline._VirtualParameter`. -/
structure VirtualParameter where
  name : String
  parameter : Param
  state_key : Option String
  default_value : Value
deriving DecidableEq

/-- Function `pipeline._default_virtual_option`: a fallback option descriptor whose
`default` is the requested default value. -/
def _default_virtual_option (name : String) (default : Value) : ParameterInfo :=
  let _ := name
  { default := default, click_type := none }

/-- Function `pipeline._create_virtual_option_parameter`: a keyword-only parameter
whose default is the option descriptor itself. -/
def _create_virtual_option_parameter (name : String) (option : ParameterInfo)
    (annotType : PyAnnot) : Param :=
  { name := name, kind := .keywordOnly, annot := annotType, default := .info option }

/-- Method `Pipeline.add_virtual_option`, acting on the pipeline's ordered virtual
list: duplicate names fail immediately; otherwise record the synthesized
parameter, the resolved state key (`state_key or "virtual:" + name` under
Python truthiness, `None` when `store_in_state` is off) and the option's
default value (`getattr(option, "default", Signature.empty)`; a descriptor
without the attribute is modelled by storing the `empty` sentinel). -/
def add_virtual_option (virtuals : List VirtualParameter) (name : String)
    (option : Option ParameterInfo) (annotType : PyAnnot) (default : Value)
    (state_key : Option String) (store_in_state : Bool) :
    Except String (List VirtualParameter) :=
  if virtuals.any (fun v => v.name == name) then
    .error ("Virtual option " ++ name ++ " is already registered.")
  else
    let option := option.getD (_default_virtual_option name default)
    let parameter := _create_virtual_option_parameter name option annotType
    let default_value := option.default
    let resolved_state_key : Option String :=
      if store_in_state then
        some (match state_key with
              | some k => if k.isEmpty then "virtual:" ++ name else k
              | none => "virtual:" ++ name)
      else none
    .ok (virtuals ++
      [{ name := name, parameter := parameter, state_key := resolved_state_key,
         default_value := default_value }])

/-- Function `pipeline._apply_virtual_parameters`: append each virtual's parameter
whose name is not already present on the signature, recording the names
actually added onto `__typerplus_virtual_param_names__`. -/
def _apply_virtual_parameters (func : Target) (params : List VirtualParameter) :
    Target :=
  if params.isEmpty then func
  else
    let existing_names := func.signature.map Param.name
    let (existing_params, added) := params.foldl
      (fun (acc : List Param × List String) virt =>
        if existing_names.contains virt.name then acc
        else (acc.1 ++ [virt.parameter], acc.2 ++ [virt.name]))
      (func.signature, [])
    if added.isEmpty then func
    else
      { func with signature := existing_params,
                  virtualParamNames := func.virtualParamNames ++ added }

/-- Function `pipeline._is_invocation_context_annotation`: the unwrapped base type is
the `InvocationContext` class itself (`CommandContext` is the same class
object) or a string naming one of the two sentinels. -/
def _is_invocation_context_annot (annot : PyAnnot) : Bool :=
  let target := (TyperAnnot.ofAnnot annot).type
  if target == .cls "InvocationContext" then true
  else
    match target with
    | .strA s => s == "InvocationContext" || s == "CommandContext"
    | _ => false

/-- Function `pipeline._ensure_invocation_context_parameter`: a no-op when the
context-param-names marker is already set (Python truthiness: a non-empty
tuple) or when no parameter carries a context annotation; otherwise record
the original signature, the reduced runtime signature and the hidden names,
and publish the runtime signature. -/
def _ensure_invocation_context_parameter (func : Target) : Target :=
  if !func.contextParamNames.isEmpty then func
  else
    let sig := func.signature
    let (context_params, remaining_params) :=
      sig.partition (fun p => _is_invocation_context_annot p.annot)
    if context_params.isEmpty then func
    else
      { func with
        originalSig := some sig,
        runtimeSig := some remaining_params,
        contextParamNames := context_params.map Param.name,
        signature := remaining_params }

/-- The `parser_factory` argument of `register_param_type`: `None`, a class,
some other callable, or a ready-made parser instance. -/
inductive ParserFactory where
  | noneF
  | classF (tag : String)
  | callableF (tag : String)
  | valueF (tag : String)
deriving DecidableEq

/-- Function `pipeline._instantiate_parser`: `None` passes through, a class is
instantiated, any other callable is called, anything else is used as-is. -/
def _instantiateParser : ParserFactory → Option String
  | .noneF => none
  | .classF tag => some (tag ++ "()")
  | .callableF tag => some (tag ++ "()")
  | .valueF tag => some tag

/-- The match test of `_create_param_type_hook.ensure`: the unwrapped base
type is the target type itself, or both are classes and the base type is a
subclass of the target (`issub` is the ambient `issubclass` relation). -/
def hookMatches (param_type : String) (issub : String → String → Bool)
    (param : Param) : Bool :=
  let target_type := (TyperAnnot.ofAnnot param.annot).type
  if target_type == .cls param_type then true
  else match target_type with
       | .cls n => issub n param_type
       | _ => false

/-- The parameter loop of the decorator returned by
`pipeline._create_param_type_hook`: returns the rewritten parameter list and
the `touched` flag, or the configuration error `(parameter name, target
type)` raised when a matching parameter has no option metadata and no
`option_factory` was given. -/
def hookEnsureParams (param_type : String) (issub : String → String → Bool)
    (option_factory : Option (Param → ParameterInfo))
    (parser_factory : ParserFactory) :
    List Param → Except (String × String) (List Param × Bool)
  | [] => .ok ([], false)
  | param :: rest =>
      let annot := TyperAnnot.ofAnnot param.annot
      let matched := hookMatches param_type issub param
      if !matched then
        (hookEnsureParams param_type issub option_factory parser_factory rest).map
          (fun r => (param :: r.1, r.2))
      else
        let metadata := annot.metadata_without_parameter_info
        let optionE : Except (String × String) ParameterInfo :=
          match annot.find_parameter_info_arg with
          | some o => .ok o
          | none =>
              match option_factory with
              | none => .error (param.name, param_type)
              | some factory => .ok (factory param)
        match optionE with
        | .error e => .error e
        | .ok option =>
          let option :=
            if option.click_type = none ∧ parser_factory ≠ .noneF then
              { option with click_type := _instantiateParser parser_factory }
            else option
          let metadata := metadata ++ [PyMeta.info option]
          let new_annot := annot.rebuild none (some metadata) none
          let default :=
            if param.default = .empty then PDefault.val .vnone else param.default
          let newParam : Param :=
            { param with annot := new_annot, default := default }
          (hookEnsureParams param_type issub option_factory parser_factory rest).map
            (fun r => (newParam :: r.1, true))

/-- The decorator returned by `pipeline._create_param_type_hook`: rewrite
the signature when any parameter matched, return the function unmodified
otherwise, propagating the configuration error. -/
def _create_param_type_hook (param_type : String) (issub : String → String → Bool)
    (option_factory : Option (Param → ParameterInfo))
    (parser_factory : ParserFactory) (func : Target) :
    Except (String × String) Target :=
  match hookEnsureParams param_type issub option_factory parser_factory
      func.signature with
  | .error e => .error e
  | .ok (params, touched) =>
      if !touched then .ok func
      else .ok { func with signature := params }

/-- A pipeline's configuration lists, as far as the claims need them: the
parameter-type hooks and the virtual-parameter specs (`Pipeline.__init__`
starts both empty; registration only appends). -/
structure Pipeline where
  param_hooks : List (Target → Except (String × String) Target)
  virtual_params : List VirtualParameter

/-- Method `Pipeline.register_param_type`: create the hook and append it; the
registration itself cannot fail. -/
def Pipeline.register_param_type (p : Pipeline) (param_type : String)
    (issub : String → String → Bool)
    (option_factory : Option (Param → ParameterInfo))
    (parser_factory : ParserFactory) : Pipeline :=
  { p with param_hooks := p.param_hooks ++
      [_create_param_type_hook param_type issub option_factory parser_factory] }

/-- One iteration of the virtual-state loop of the adapter produced by
`Pipeline.build`: when the spec has a (truthy — `None` and the empty string
are falsy) state key, record the caller-supplied keyword value, falling
back to the recorded default, with the `Signature.empty` sentinel mapped to
`None`. -/
def recordVirtualStep (call : InvocationCall) (st : Dict Value)
    (v : VirtualParameter) : Dict Value :=
  match v.state_key with
  | none => st
  | some key =>
      if key.isEmpty then st
      else
        let value := (dictGet call.kwargs v.name).getD v.default_value
        let value := if value = .empty then Value.vnone else value
        dictSet st key value

/-- The virtual-state loop of the adapter produced by `Pipeline.build`
(`for virtual in current_virtual_params: ...`). -/
def recordVirtualState (virtuals : List VirtualParameter) (call : InvocationCall)
    (state : Dict Value) : Dict Value :=
  virtuals.foldl (recordVirtualStep call) state

/-- An invocation handler observed through its ordered side-effect log
(`types.CommandHandler`; the log stands for the externally observable
effects middlewares and the target produce, in order). -/
abbrev Handler := List String → List String

/-- Protocol `types.Middleware`: takes the next handler, returns a new handler. -/
abbrev MiddlewareFn := Handler → Handler

/-- The middleware-chain construction inside `Pipeline.build`: starting from
the base handler, wrap with each middleware in reverse registration order
(`for mw in reversed(self._middlewares): handler = mw(handler)`). -/
def composeMiddlewares (middlewares : List MiddlewareFn) (base : Handler) : Handler :=
  middlewares.reverse.foldl (fun handler mw => mw handler) base

/-- A middleware that logs an event before and after delegating, the shape
used by the spec's ordering property. -/
def logMiddleware (pre post : String) : MiddlewareFn :=
  fun next trace => (next (trace ++ [pre])) ++ [post]

/-- The base handler of `Pipeline.build` (`inv.invoke_target()`), observed
as the single event of calling the target. -/
def baseHandler : Handler := fun trace => trace ++ ["call"]

/-! ### Instrumented variants of `resolve_call_arguments`

`resolveStepChk` / `resolve_call_arguments_chk` make every operation that
could raise in Python (`args_list[idx]` indexing, `kwargs_map.pop(name)`)
explicit in an `Except` result, to state that the guards in the source make
the resolution total.  `resolveHeap` gives the working kwargs dict Python's
reference semantics (a mutable heap cell) to state that the recorded call's
own dict is never written. -/

/-- One loop iteration with explicit partiality: identical branch structure
to `resolveStep`, but `args_list[idx]` and `kwargs_map.pop(name)` are
checked operations that report `IndexError` / `KeyError` instead of relying
on the guards. -/
def resolveStepChk (context_names virtual_names : List String)
    (ctxVal : Value) (args_list : List Value)
    (st : ResolveSt) (param : Param) : Except String ResolveSt :=
  if context_names.contains param.name then
    match param.kind with
    | .positionalOnly | .positionalOrKeyword =>
        .ok { st with final_args := st.final_args ++ [ctxVal] }
    | _ =>
        .ok { st with final_kwargs := dictSet st.final_kwargs param.name ctxVal }
  else if virtual_names.contains param.name then
    if (param.kind = .positionalOnly ∨ param.kind = .positionalOrKeyword)
        ∧ st.idx < args_list.length then
      .ok { st with idx := st.idx + 1 }
    else .ok st
  else
    match param.kind with
    | .varPositional =>
        if st.idx < args_list.length then
          .ok { st with final_args := st.final_args ++ args_list.drop st.idx,
                        idx := args_list.length }
        else .ok st
    | .varKeyword =>
        if st.kwargs_map.isEmpty then .ok st
        else .ok { st with final_kwargs := dictUpdate st.final_kwargs st.kwargs_map,
                           kwargs_map := [] }
    | .keywordOnly =>
        if dictMem st.kwargs_map param.name then
          match dictGet st.kwargs_map param.name with
          | some v =>
              .ok { st with final_kwargs := dictSet st.final_kwargs param.name v,
                            kwargs_map := dictPop st.kwargs_map param.name }
          | none => .error "KeyError"
        else .ok st
    | _ =>
        if dictMem st.kwargs_map param.name then
          match dictGet st.kwargs_map param.name with
          | some v =>
              .ok { st with final_kwargs := dictSet st.final_kwargs param.name v,
                            kwargs_map := dictPop st.kwargs_map param.name }
          | none => .error "KeyError"
        else if st.idx < args_list.length then
          match args_list.get? st.idx with
          | some v =>
              .ok { st with final_args := st.final_args ++ [v], idx := st.idx + 1 }
          | none => .error "IndexError"
        else .ok st

/-- Variant of `resolve_call_arguments` with explicit partiality (see `resolveStepChk`). -/
def Invocation.resolve_call_arguments_chk (inv : Invocation) (alloc : CtxAlloc) :
    Except String ((List Value × Dict Value) × Invocation × CtxAlloc) :=
  let exec_sig := inv.target.originalSig.getD inv.target.signature
  let context_names := inv.target.contextParamNames
  let virtual_names := inv.target.virtualParamNames
  let args_list := inv.call.args
  let kwargs_map := virtual_names.foldl (fun m v => dictPop m v) inv.call.kwargs
  let (ctxVal, inv, alloc) := inv.command_context alloc
  match exec_sig.foldlM
      (resolveStepChk context_names virtual_names ctxVal args_list)
      { idx := 0, kwargs_map := kwargs_map, final_args := [], final_kwargs := [] } with
  | .error e => .error e
  | .ok st =>
      let final_kwargs :=
        if st.kwargs_map.isEmpty then st.final_kwargs
        else dictUpdate st.final_kwargs st.kwargs_map
      .ok ((st.final_args, final_kwargs), inv, alloc)

/-- A heap of Python dict objects: cell index = object identity. -/
structure Heap where
  cells : List (Dict Value)
deriving DecidableEq

/-- Allocate a fresh dict object. -/
def Heap.alloc (h : Heap) (d : Dict Value) : Nat × Heap :=
  (h.cells.length, ⟨h.cells ++ [d]⟩)

/-- Read a dict object. -/
def Heap.read (h : Heap) (a : Nat) : Dict Value :=
  (h.cells.get? a).getD []

/-- Overwrite a dict object in place. -/
def Heap.write (h : Heap) (a : Nat) (d : Dict Value) : Heap :=
  ⟨h.cells.set a d⟩

/-- The loop state of `resolveHeap`: the working kwargs dict lives in the
heap cell `workAddr` passed alongside. -/
structure ResolveHSt where
  idx : Nat
  heap : Heap
  final_args : List Value
  final_kwargs : Dict Value
deriving DecidableEq

/-- One loop iteration of `resolveHeap`: as `resolveStep`, with every read
and mutation of `kwargs_map` going through the heap cell `workAddr`. -/
def resolveStepHeap (context_names virtual_names : List String)
    (ctxVal : Value) (args_list : List Value) (workAddr : Nat)
    (st : ResolveHSt) (param : Param) : ResolveHSt :=
  if context_names.contains param.name then
    match param.kind with
    | .positionalOnly | .positionalOrKeyword =>
        { st with final_args := st.final_args ++ [ctxVal] }
    | _ =>
        { st with final_kwargs := dictSet st.final_kwargs param.name ctxVal }
  else if virtual_names.contains param.name then
    if (param.kind = .positionalOnly ∨ param.kind = .positionalOrKeyword)
        ∧ st.idx < args_list.length then
      { st with idx := st.idx + 1 }
    else st
  else
    match param.kind with
    | .varPositional =>
        if st.idx < args_list.length then
          { st with final_args := st.final_args ++ args_list.drop st.idx,
                    idx := args_list.length }
        else st
    | .varKeyword =>
        let kwargs_map := st.heap.read workAddr
        if kwargs_map.isEmpty then st
        else { st with final_kwargs := dictUpdate st.final_kwargs kwargs_map,
                       heap := st.heap.write workAddr [] }
    | .keywordOnly =>
        let kwargs_map := st.heap.read workAddr
        match dictGet kwargs_map param.name with
        | some v =>
            { st with final_kwargs := dictSet st.final_kwargs param.name v,
                      heap := st.heap.write workAddr (dictPop kwargs_map param.name) }
        | none => st
    | _ =>
        let kwargs_map := st.heap.read workAddr
        match dictGet kwargs_map param.name with
        | some v =>
            { st with final_kwargs := dictSet st.final_kwargs param.name v,
                      heap := st.heap.write workAddr (dictPop kwargs_map param.name) }
        | none =>
            match args_list.get? st.idx with
            | some v =>
                { st with final_args := st.final_args ++ [v], idx := st.idx + 1 }
            | none => st

/-- Variant of `resolve_call_arguments` under reference semantics for dicts: the
recorded call's kwargs dict is the heap cell `kwargsAddr`; the algorithm
first copies it into a freshly allocated working cell (`dict(...)`), strips
the virtual names there, and mutates only that working cell. -/
def Invocation.resolveHeap (inv : Invocation) (kwargsAddr : Nat) (h : Heap)
    (alloc : CtxAlloc) : (List Value × Dict Value) × Heap × Invocation × CtxAlloc :=
  let exec_sig := inv.target.originalSig.getD inv.target.signature
  let context_names := inv.target.contextParamNames
  let virtual_names := inv.target.virtualParamNames
  let args_list := inv.call.args
  let (workAddr, h) := h.alloc (h.read kwargsAddr)
  let h := virtual_names.foldl
    (fun hh v => hh.write workAddr (dictPop (hh.read workAddr) v)) h
  let (ctxVal, inv, alloc) := inv.command_context alloc
  let st := exec_sig.foldl
    (resolveStepHeap context_names virtual_names ctxVal args_list workAddr)
    { idx := 0, heap := h, final_args := [], final_kwargs := [] }
  let kwargs_map := st.heap.read workAddr
  let final_kwargs :=
    if kwargs_map.isEmpty then st.final_kwargs
    else dictUpdate st.final_kwargs kwargs_map
  ((st.final_args, final_kwargs), st.heap, inv, alloc)

/-! ### Concrete scenarios and access iteration used by the claims -/

/-- Iterated accesses (`n` of them) to `Invocation.command_context`, collecting the
returned `InvocationContext` values. -/
def accessContextN : Nat → Invocation → CtxAlloc → List Value × Invocation × CtxAlloc
  | 0, inv, alloc => ([], inv, alloc)
  | n + 1, inv, alloc =>
      let (v, inv1, alloc1) := inv.command_context alloc
      let (vs, inv2, alloc2) := accessContextN n inv1 alloc1
      (v :: vs, inv2, alloc2)

/-- The original signature `(ctx, a, /, b, *args, kwonly, **kwargs)` of the
spec's mixed-parameter-kinds scenario, with `ctx` annotated as the
invocation context. -/
def mixedKindsSig : List Param :=
  [ { name := "ctx", kind := .positionalOnly, annot := .cls "InvocationContext",
      default := .empty },
    { name := "a", kind := .positionalOnly, annot := .empty, default := .empty },
    { name := "b", kind := .positionalOrKeyword, annot := .empty, default := .empty },
    { name := "args", kind := .varPositional, annot := .empty, default := .empty },
    { name := "kwonly", kind := .keywordOnly, annot := .empty, default := .empty },
    { name := "kwargs", kind := .varKeyword, annot := .empty, default := .empty } ]

/-- The invocation of the mixed-kinds scenario: `ctx` recorded as a hidden
context parameter, `virt` as a hidden virtual parameter, incoming call
`args=(10, 20, 30)`, `kwargs=(kwonly=40, virt=True, xtra=50)`. -/
def mixedKindsInv : Invocation :=
  { target := { signature := mixedKindsSig, originalSig := some mixedKindsSig,
                runtimeSig := none, contextParamNames := ["ctx"],
                virtualParamNames := ["virt"] },
    call := { args := [.vint 10, .vint 20, .vint 30],
              kwargs := [("kwonly", .vint 40), ("virt", .vbool true),
                         ("xtra", .vint 50)] },
    state := [], ctxCache := none }

/-- All sixteen letter-casings of the string `INFO`. -/
def infoCasings : List (List Char) :=
  ["info".toList, "Info".toList, "iNfo".toList, "INfo".toList,
   "inFo".toList, "InFo".toList, "iNFo".toList, "INFo".toList,
   "infO".toList, "InfO".toList, "iNfO".toList, "INfO".toList,
   "inFO".toList, "InFO".toList, "iNFO".toList, "INFO".toList]

/-- A concrete virtual-option spec for the scenarios: name `virt`, stored
under state key `virtual:virt`, default `False` (the `add_virtual_option`
defaults). -/
def virtSpec : VirtualParameter :=
  { name := "virt",
    parameter := { name := "virt", kind := .keywordOnly, annot := .cls "bool",
                   default := .info { default := .vbool false, click_type := none } },
    state_key := some "virtual:virt",
    default_value := .vbool false }

/-! ## Helper lemmas: Python dict semantics -/

theorem dictGet_eq_none_of_not_mem {α : Type} (d : Dict α) (k : String)
    (h : dictMem d k = false) : dictGet d k = none := by
  induction d with
  | nil => rfl
  | cons e d ih =>
      simp [dictMem] at h
      simp [dictGet, h.1, ih h.2]

theorem dictGet_isSome_of_mem {α : Type} (d : Dict α) (k : String)
    (h : dictMem d k = true) : (dictGet d k).isSome := by
  induction d with
  | nil => simp [dictMem] at h
  | cons e d ih =>
      by_cases hh : e.1 = k
      · simp [dictGet, hh]
      · simp [dictMem, hh] at h
        simp [dictGet, hh, ih h]

theorem dictMem_dictPop_self {α : Type} (d : Dict α) (k : String) :
    dictMem (dictPop d k) k = false := by
  induction d with
  | nil => rfl
  | cons e d ih =>
      by_cases hh : e.1 = k
      · simp [dictPop, hh, ih]
      · simp [dictPop, dictMem, hh, ih]

theorem dictMem_dictPop_of_false {α : Type} (d : Dict α) (k k2 : String)
    (h : dictMem d k = false) : dictMem (dictPop d k2) k = false := by
  induction d with
  | nil => rfl
  | cons e d ih =>
      simp [dictMem] at h
      by_cases hh : e.1 = k2
      · simp [dictPop, hh, ih h.2]
      · simp [dictPop, dictMem, hh, h.1, ih h.2]

theorem dictMem_dictSet_of_false {α : Type} (d : Dict α) (k k2 : String) (v : α)
    (hne : k2 ≠ k) (h : dictMem d k = false) : dictMem (dictSet d k2 v) k = false := by
  induction d with
  | nil => simp [dictSet, dictMem, hne]
  | cons e d ih =>
      simp [dictMem] at h
      by_cases hh : e.1 = k2
      · simp [dictSet, hh, dictMem, hne, h.2]
      · simp [dictSet, hh, dictMem, h.1, ih h.2]

theorem dictMem_dictUpdate_of_false {α : Type} (e d : Dict α) (k : String)
    (hd : dictMem d k = false) (he : dictMem e k = false) :
    dictMem (dictUpdate d e) k = false := by
  induction e generalizing d with
  | nil => simpa [dictUpdate]
  | cons x e ih =>
      simp [dictMem] at he
      show dictMem (dictUpdate (dictSet d x.1 x.2) e) k = false
      exact ih (dictSet d x.1 x.2)
        (dictMem_dictSet_of_false d k x.1 x.2 he.1 hd)
        (by simpa [dictMem] using he.2)

theorem dictGet_dictSet_self {α : Type} (d : Dict α) (k : String) (v : α) :
    dictGet (dictSet d k v) k = some v := by
  induction d with
  | nil => simp [dictSet, dictGet]
  | cons e d ih =>
      by_cases hh : e.1 = k
      · simp [dictSet, hh, dictGet]
      · simp [dictSet, hh, dictGet, ih]

theorem dictGet_dictSet_ne {α : Type} (d : Dict α) (k k2 : String) (v : α)
    (hne : k2 ≠ k) : dictGet (dictSet d k v) k2 = dictGet d k2 := by
  induction d with
  | nil => simp [dictSet, dictGet, Ne.symm hne]
  | cons e d ih =>
      by_cases hh : e.1 = k
      · simp [dictSet, hh, dictGet, Ne.symm hne, hh ▸ hne]
      · by_cases hh2 : e.1 = k2
        · simp [dictSet, hh, dictGet, hh2, hne]
        · simp [dictSet, hh, dictGet, hh2, ih]

theorem dictMem_stripFold_of_false (names : List String) (d : Dict Value)
    (k : String) (h : dictMem d k = false) :
    dictMem (names.foldl (fun m v => dictPop m v) d) k = false := by
  induction names generalizing d with
  | nil => simpa
  | cons n names ih => exact ih (dictPop d n) (dictMem_dictPop_of_false d k n h)

theorem dictMem_stripFold_self (names : List String) (d : Dict Value)
    (k : String) (hk : k ∈ names) :
    dictMem (names.foldl (fun m v => dictPop m v) d) k = false := by
  induction names generalizing d with
  | nil => cases hk
  | cons n names ih =>
      by_cases hh : k = n
      · subst hh
        exact dictMem_stripFold_of_false names (dictPop d k) k
          (dictMem_dictPop_self d k)
      · exact ih (dictPop d n) (List.mem_of_ne_of_mem hh hk)

theorem dictMem_eq_isSome {α : Type} (d : Dict α) (k : String) :
    dictMem d k = (dictGet d k).isSome := by
  induction d with
  | nil => rfl
  | cons e d ih => by_cases hh : e.1 = k <;> simp [dictMem, dictGet, hh, ih]

theorem unionArgsEquiv_rfl (as : List PyAnnot) : unionArgsEquiv as as = true := by
  simp only [unionArgsEquiv, Bool.and_self, List.all_eq_true]
  intro x hx
  exact List.elem_eq_true_of_mem hx

/-! ## Claim theorems -/

/-- C1: against the original signature `(ctx, a, /, b, *args, kwonly,
**kwargs)` with hidden context `ctx` and hidden virtual `virt`, the call
`args=(10, 20, 30)`, `kwargs=(kwonly=40, virt=True, xtra=50)` resolves to
`args=(ctx, 10, 20, 30)`, `kwargs=(kwonly=40, xtra=50)` — with `ctx` the
invocation's own freshly-cached `InvocationContext` — and Python's call
binding then hands the original function `a=10`, `b=20`, `args=(30,)`,
`kwonly=40`, `kwargs=(xtra=50)` and `ctx` bound to that context. -/
theorem claim_mixed_kinds_resolution :
    (mixedKindsInv.resolve_call_arguments ⟨0, 0⟩).1 =
      ([.ctxRef 0, .vint 10, .vint 20, .vint 30],
       [("kwonly", .vint 40), ("xtra", .vint 50)])
    ∧ (mixedKindsInv.resolve_call_arguments ⟨0, 0⟩).2.1.ctxCache = some 0
    ∧ bindCall mixedKindsSig [.ctxRef 0, .vint 10, .vint 20, .vint 30]
        [("kwonly", .vint 40), ("xtra", .vint 50)] =
      .ok [("ctx", .single (.ctxRef 0)), ("a", .single (.vint 10)),
           ("b", .single (.vint 20)), ("args", .star [.vint 30]),
           ("kwonly", .single (.vint 40)), ("kwargs", .dstar [("xtra", .vint 50)])] :=
  ⟨by decide, by decide, rfl⟩

/-- C3: for middlewares A (registered first) and B, the chain built by
`Pipeline.build` (reverse-registration-order wrapping around the base
handler) produces the observable event order
`[A-pre, B-pre, call, B-post, A-post]`. -/
theorem claim_middleware_order (aPre aPost bPre bPost : String) :
    composeMiddlewares [logMiddleware aPre aPost, logMiddleware bPre bPost]
        baseHandler []
      = [aPre, bPre, "call", bPost, aPost] := rfl

/-- C4 (counterexample): at `T = NoneType` the claim fails: CPython
collapses `Optional[NoneType] = Union[NoneType, NoneType]` to plain
`NoneType`, so the decomposed view reports `optional = False`, not the
claimed `optional = True`. -/
theorem claim_optional_spellings_counterexample :
    ¬ ((TyperAnnot.ofAnnot (pyOptional PyAnnot.noneType)).optional = true) := by
  decide

/-- C4 (amended): for every class `T` other than `NoneType`, the three
spellings `Optional[T]`, `Union[T, None]` and `T | None` decompose to the
same view `(type = T, optional = True, no metadata)`, and rebuilding a
decomposed view yields an expression Python-`==`-equivalent to the one
decomposed. -/
theorem claim_optional_spellings_amended (nm : String) :
    (TyperAnnot.ofAnnot (pyOptional (PyAnnot.cls nm))).type = PyAnnot.cls nm
    ∧ (TyperAnnot.ofAnnot (pyOptional (PyAnnot.cls nm))).optional = true
    ∧ (TyperAnnot.ofAnnot (pyOptional (PyAnnot.cls nm))).annots = []
    ∧ TyperAnnot.ofAnnot (mkTUnion [PyAnnot.cls nm, PyAnnot.noneType])
        = TyperAnnot.ofAnnot (pyOptional (PyAnnot.cls nm))
    ∧ (TyperAnnot.ofAnnot (pyOr (PyAnnot.cls nm) PyAnnot.noneType)).type
        = PyAnnot.cls nm
    ∧ (TyperAnnot.ofAnnot (pyOr (PyAnnot.cls nm) PyAnnot.noneType)).optional = true
    ∧ (TyperAnnot.ofAnnot (pyOr (PyAnnot.cls nm) PyAnnot.noneType)).annots = []
    ∧ annotEquiv
        ((TyperAnnot.ofAnnot (pyOptional (PyAnnot.cls nm))).rebuild none none none)
        (pyOptional (PyAnnot.cls nm)) = true
    ∧ annotEquiv
        ((TyperAnnot.ofAnnot (pyOr (PyAnnot.cls nm) PyAnnot.noneType)).rebuild
          none none none)
        (pyOr (PyAnnot.cls nm) PyAnnot.noneType) = true := by
  refine ⟨rfl, rfl, rfl, rfl, rfl, rfl, rfl, ?_, ?_⟩
  · show annotEquiv (PyAnnot.tunion [PyAnnot.cls nm, PyAnnot.noneType])
      (PyAnnot.tunion [PyAnnot.cls nm, PyAnnot.noneType]) = true
    simp [annotEquiv, unionArgsEquiv_rfl]
  · show annotEquiv (PyAnnot.tunion [PyAnnot.cls nm, PyAnnot.noneType])
      (PyAnnot.pipeUnion [PyAnnot.cls nm, PyAnnot.noneType]) = true
    simp [annotEquiv, unionArgsEquiv_rfl]

/-- C6: `_ensure_invocation_context_parameter` is idempotent — the second
application is detected by the now-set context-param-names marker (or finds
no context parameter, as the first did) and changes nothing, so hidden
names and published signature agree with a single application. -/
theorem ensure_context_marker_set (g : Target)
    (hg : g.contextParamNames.isEmpty = false) :
    _ensure_invocation_context_parameter g = g := by
  unfold _ensure_invocation_context_parameter
  simp [hg]

theorem claim_context_hiding_idempotent (func : Target) :
    _ensure_invocation_context_parameter (_ensure_invocation_context_parameter func)
      = _ensure_invocation_context_parameter func := by
  by_cases h1 : func.contextParamNames.isEmpty
  · by_cases h2 : ∀ p ∈ func.signature, _is_invocation_context_annot p.annot = false
    · have hinner : _ensure_invocation_context_parameter func = func := by
        unfold _ensure_invocation_context_parameter
        simp [h1, h2]
        intro x hx hP
        rw [h2 x hx] at hP
        cases hP
      rw [hinner, hinner]
    · have hne :
          ((_ensure_invocation_context_parameter func).contextParamNames).isEmpty
            = false := by
        unfold _ensure_invocation_context_parameter
        simp only [h1, Bool.not_true, Bool.false_eq_true, if_false,
          List.partition_eq_filter_filter]
        push_neg at h2
        obtain ⟨p, hp, hP⟩ := h2
        have hP' : _is_invocation_context_annot p.annot = true := by
          simpa using hP
        rw [if_neg]
        · simp only [List.isEmpty_eq_false, ne_eq, List.map_eq_nil_iff]
          intro hnil
          have : p ∈ List.filter (fun p => _is_invocation_context_annot p.annot)
              func.signature := List.mem_filter.mpr ⟨hp, hP'⟩
          rw [hnil] at this
          cases this
        · simp only [List.isEmpty_eq_true]
          intro hnil
          have : p ∈ List.filter (fun p => _is_invocation_context_annot p.annot)
              func.signature := List.mem_filter.mpr ⟨hp, hP'⟩
          rw [hnil] at this
          cases this
      exact ensure_context_marker_set _ hne
  · have h1' : func.contextParamNames.isEmpty = false := by
      simpa using h1
    rw [ensure_context_marker_set func h1', ensure_context_marker_set func h1']

theorem ctx_cached_stable (n : Nat) (inv : Invocation) (alloc : CtxAlloc) (i : Nat)
    (h : inv.ctxCache = some i) :
    accessContextN n inv alloc = (List.replicate n (.ctxRef i), inv, alloc) := by
  induction n with
  | zero => rfl
  | succ n ih =>
      have hstep : inv.command_context alloc = (.ctxRef i, inv, alloc) := by
        unfold Invocation.command_context
        rw [h]
      simp [accessContextN, hstep, ih, List.replicate_succ]

/-- C9: for a fresh invocation, every access to `command_context` (the
first, and all the ones after it) returns the identical
`InvocationContext`, exactly one such object is ever constructed, and the
argument-resolution pass stores that same single instance in the cache. -/
theorem claim_context_identity (inv : Invocation) (alloc : CtxAlloc) (n : Nat)
    (h : inv.ctxCache = none) :
    (accessContextN (n + 1) inv alloc).1
        = List.replicate (n + 1) (.ctxRef alloc.nextId)
    ∧ (accessContextN (n + 1) inv alloc).2.2.created = alloc.created + 1
    ∧ ((inv.resolve_call_arguments alloc).2.1).ctxCache = some alloc.nextId := by
  have hstep : inv.command_context alloc =
      (.ctxRef alloc.nextId, { inv with ctxCache := some alloc.nextId },
       { nextId := alloc.nextId + 1, created := alloc.created + 1 }) := by
    unfold Invocation.command_context
    rw [h]
  have htail := ctx_cached_stable n { inv with ctxCache := some alloc.nextId }
    { nextId := alloc.nextId + 1, created := alloc.created + 1 } alloc.nextId rfl
  refine ⟨?_, ?_, ?_⟩
  · simp [accessContextN, hstep, htail, List.replicate_succ]
  · simp [accessContextN, hstep, htail]
  · unfold Invocation.resolve_call_arguments
    rw [hstep]

theorem claim_context_identity_witness :
    (accessContextN 3 mixedKindsInv ⟨5, 0⟩).1 = List.replicate 3 (.ctxRef 5)
    ∧ (accessContextN 3 mixedKindsInv ⟨5, 0⟩).2.2.created = 0 + 1
    ∧ ((mixedKindsInv.resolve_call_arguments ⟨5, 0⟩).2.1).ctxCache = some 5 :=
  claim_context_identity mixedKindsInv ⟨5, 0⟩ 2 rfl

/-- C8: the logger value converter maps counts `0` (and below) to `ERROR`,
`1` to `WARNING`, `2` to `INFO`, `3` and above to `DEBUG`; the string
`INFO` in any letter casing converts to `INFO`; the empty string and values
of unsupported type fail with a conversion error. -/
theorem claim_logger_level_mapping :
    (∀ n : Int, n ≤ 0 → _coerce_level (.int n) = .ok ERROR)
    ∧ _coerce_level (.int 1) = .ok WARNING
    ∧ _coerce_level (.int 2) = .ok INFO
    ∧ (∀ n : Int, 3 ≤ n → _coerce_level (.int n) = .ok DEBUG)
    ∧ (∀ s ∈ infoCasings, _coerce_level (.str s) = .ok INFO)
    ∧ _coerce_level (.str "".toList) = .error "log level cannot be empty"
    ∧ _coerce_level (.obj "object()") = .error "unsupported log level value" := by
  refine ⟨?_, rfl, rfl, ?_, ?_, rfl, rfl⟩
  · intro n hn
    show Except.ok (_level_from_count n) = Except.ok ERROR
    unfold _level_from_count
    rw [if_pos hn]
  · intro n hn
    show Except.ok (_level_from_count n) = Except.ok DEBUG
    unfold _level_from_count
    rw [if_neg (by omega), if_neg (by omega), if_neg (by omega)]
  · intro s hs
    fin_cases hs <;> rfl

theorem claim_logger_level_mapping_witness :
    _coerce_level (.int 0) = .ok ERROR
    ∧ _coerce_level (.int 7) = .ok DEBUG
    ∧ _coerce_level (.str "iNfO".toList) = .ok INFO :=
  ⟨claim_logger_level_mapping.1 0 (by omega),
   claim_logger_level_mapping.2.2.2.1 7 (by omega),
   claim_logger_level_mapping.2.2.2.2.1 "iNfO".toList (by decide)⟩

theorem resolveStepChk_ok (cn vn : List String) (ctxVal : Value) (al : List Value)
    (st : ResolveSt) (p : Param) :
    resolveStepChk cn vn ctxVal al st p = .ok (resolveStep cn vn ctxVal al st p) := by
  unfold resolveStepChk resolveStep
  by_cases h1 : cn.contains p.name
  · simp only [h1, if_true]
    cases p.kind <;> rfl
  · simp only [h1, Bool.false_eq_true, if_false]
    by_cases h2 : vn.contains p.name
    · simp only [h2, if_true]
      split <;> rfl
    · simp only [h2, Bool.false_eq_true, if_false]
      cases hk : p.kind with
      | varPositional =>
          dsimp only
          split <;> rfl
      | varKeyword =>
          dsimp only
          split <;> rfl
      | keywordOnly =>
          cases hg : dictGet st.kwargs_map p.name with
          | some v =>
              have hm : dictMem st.kwargs_map p.name = true := by
                rw [dictMem_eq_isSome, hg]
                rfl
              simp [hm, hg]
          | none =>
              have hm : dictMem st.kwargs_map p.name = false := by
                rw [dictMem_eq_isSome, hg]
                rfl
              simp [hm, hg]
      | positionalOnly =>
          cases hg : dictGet st.kwargs_map p.name with
          | some v =>
              have hm : dictMem st.kwargs_map p.name = true := by
                rw [dictMem_eq_isSome, hg]
                rfl
              simp [hm, hg]
          | none =>
              have hm : dictMem st.kwargs_map p.name = false := by
                rw [dictMem_eq_isSome, hg]
                rfl
              by_cases hlt : st.idx < al.length
              · have hv : al[st.idx]? = some al[st.idx] :=
                  List.getElem?_eq_getElem hlt
                simp [hm, hg, hlt, hv]
              · have hnone : al[st.idx]? = none :=
                  List.getElem?_eq_none (Nat.le_of_not_lt hlt)
                simp [hm, hg, hlt, hnone]
      | positionalOrKeyword =>
          cases hg : dictGet st.kwargs_map p.name with
          | some v =>
              have hm : dictMem st.kwargs_map p.name = true := by
                rw [dictMem_eq_isSome, hg]
                rfl
              simp [hm, hg]
          | none =>
              have hm : dictMem st.kwargs_map p.name = false := by
                rw [dictMem_eq_isSome, hg]
                rfl
              by_cases hlt : st.idx < al.length
              · have hv : al[st.idx]? = some al[st.idx] :=
                  List.getElem?_eq_getElem hlt
                simp [hm, hg, hlt, hv]
              · have hnone : al[st.idx]? = none :=
                  List.getElem?_eq_none (Nat.le_of_not_lt hlt)
                simp [hm, hg, hlt, hnone]

theorem foldlM_resolveChk (cn vn : List String) (ctxVal : Value) (al : List Value)
    (l : List Param) (st : ResolveSt) :
    l.foldlM (resolveStepChk cn vn ctxVal al) st
      = .ok (l.foldl (resolveStep cn vn ctxVal al) st) := by
  induction l generalizing st with
  | nil => rfl
  | cons p l ih =>
      rw [List.foldlM_cons, resolveStepChk_ok]
      show (l.foldlM (resolveStepChk cn vn ctxVal al) _ : Except String ResolveSt) = _
      rw [ih]
      rfl

/-- C5: argument resolution never raises: the `Except`-instrumented variant
(whose list indexing and kwargs popping are checked operations) always
succeeds, returning exactly the result of the total resolution — in
particular a missing required parameter does not fail here, only later when
the reconstructed call is bound against the original function. -/
theorem claim_resolution_total (inv : Invocation) (alloc : CtxAlloc) :
    inv.resolve_call_arguments_chk alloc = .ok (inv.resolve_call_arguments alloc) := by
  unfold Invocation.resolve_call_arguments_chk Invocation.resolve_call_arguments
  simp only [foldlM_resolveChk]

theorem heapRead_write_ne (h : Heap) (a b : Nat) (d : Dict Value) (hne : a ≠ b) :
    (h.write b d).read a = h.read a := by
  simp [Heap.write, Heap.read, List.getElem?_set_ne (Ne.symm hne)]

theorem heapRead_alloc (h : Heap) (d : Dict Value) (a : Nat)
    (ha : a < h.cells.length) : (h.alloc d).2.read a = h.read a := by
  simp [Heap.alloc, Heap.read, List.getElem?_append, ha]

theorem resolveStepHeap_read_ne (cn vn : List String) (ctxVal : Value)
    (al : List Value) (workAddr : Nat) (st : ResolveHSt) (p : Param) (a : Nat)
    (hne : a ≠ workAddr) :
    ((resolveStepHeap cn vn ctxVal al workAddr st p).heap).read a = st.heap.read a := by
  unfold resolveStepHeap
  by_cases h1 : cn.contains p.name
  · simp only [h1, if_true]
    cases p.kind <;> rfl
  · simp only [h1, Bool.false_eq_true, if_false]
    by_cases h2 : vn.contains p.name
    · simp only [h2, if_true]
      split <;> rfl
    · simp only [h2, Bool.false_eq_true, if_false]
      cases p.kind with
      | varPositional =>
          dsimp only
          split <;> rfl
      | varKeyword =>
          dsimp only
          split
          · rfl
          · exact heapRead_write_ne _ _ _ _ hne
      | keywordOnly =>
          dsimp only
          cases dictGet (st.heap.read workAddr) p.name with
          | some v => exact heapRead_write_ne _ _ _ _ hne
          | none => rfl
      | positionalOnly =>
          dsimp only
          cases dictGet (st.heap.read workAddr) p.name with
          | some v => exact heapRead_write_ne _ _ _ _ hne
          | none => cases al.get? st.idx <;> rfl
      | positionalOrKeyword =>
          dsimp only
          cases dictGet (st.heap.read workAddr) p.name with
          | some v => exact heapRead_write_ne _ _ _ _ hne
          | none => cases al.get? st.idx <;> rfl

theorem loopHeap_read_ne (cn vn : List String) (ctxVal : Value) (al : List Value)
    (workAddr : Nat) (l : List Param) (st : ResolveHSt) (a : Nat)
    (hne : a ≠ workAddr) :
    ((l.foldl (resolveStepHeap cn vn ctxVal al workAddr) st).heap).read a
      = st.heap.read a := by
  induction l generalizing st with
  | nil => rfl
  | cons p l ih =>
      rw [List.foldl_cons, ih, resolveStepHeap_read_ne cn vn ctxVal al workAddr st p a hne]

theorem stripHeap_read_ne (names : List String) (h : Heap) (workAddr a : Nat)
    (hne : a ≠ workAddr) :
    (names.foldl (fun hh v => hh.write workAddr (dictPop (hh.read workAddr) v)) h).read a
      = h.read a := by
  induction names generalizing h with
  | nil => rfl
  | cons nn names ih =>
      rw [List.foldl_cons, ih, heapRead_write_ne _ _ _ _ hne]

theorem command_context_call (inv : Invocation) (alloc : CtxAlloc) :
    ((inv.command_context alloc).2.1).call = inv.call := by
  unfold Invocation.command_context
  cases inv.ctxCache <;> rfl

/-- C10: `resolve_call_arguments` never mutates the invocation's recorded
call: under reference semantics for the kwargs dict (the heap cell
`kwargsAddr`), the algorithm copies it into a fresh cell, mutates only that
copy, and leaves both the recorded kwargs cell and `call.args` untouched. -/
theorem claim_resolve_preserves_call (inv : Invocation) (kwargsAddr : Nat)
    (h : Heap) (alloc : CtxAlloc) (hlt : kwargsAddr < h.cells.length) :
    ((inv.resolveHeap kwargsAddr h alloc).2.1).read kwargsAddr = h.read kwargsAddr
    ∧ ((inv.resolveHeap kwargsAddr h alloc).2.2.1).call = inv.call := by
  have hne : kwargsAddr ≠ h.cells.length := Nat.ne_of_lt hlt
  unfold Invocation.resolveHeap
  constructor
  · show (((inv.target.originalSig.getD inv.target.signature).foldl
        (resolveStepHeap inv.target.contextParamNames inv.target.virtualParamNames
          (inv.command_context alloc).1 inv.call.args h.cells.length)
        { idx := 0,
          heap := inv.target.virtualParamNames.foldl
            (fun hh v => hh.write h.cells.length (dictPop (hh.read h.cells.length) v))
            (h.alloc (h.read kwargsAddr)).2,
          final_args := [], final_kwargs := [] }).heap).read kwargsAddr
      = h.read kwargsAddr
    rw [loopHeap_read_ne _ _ _ _ _ _ _ _ hne]
    show ((inv.target.virtualParamNames.foldl
        (fun hh v => hh.write h.cells.length (dictPop (hh.read h.cells.length) v))
        (h.alloc (h.read kwargsAddr)).2)).read kwargsAddr = h.read kwargsAddr
    rw [stripHeap_read_ne _ _ _ _ hne]
    exact heapRead_alloc h _ kwargsAddr hlt
  · show ((inv.command_context alloc).2.1).call = inv.call
    exact command_context_call inv alloc

theorem claim_resolve_preserves_call_witness :
    ((mixedKindsInv.resolveHeap 0 ⟨[mixedKindsInv.call.kwargs]⟩ ⟨0, 0⟩).2.1).read 0
        = Heap.read ⟨[mixedKindsInv.call.kwargs]⟩ 0
    ∧ ((mixedKindsInv.resolveHeap 0 ⟨[mixedKindsInv.call.kwargs]⟩ ⟨0, 0⟩).2.2.1).call
        = mixedKindsInv.call :=
  claim_resolve_preserves_call mixedKindsInv 0 ⟨[mixedKindsInv.call.kwargs]⟩ ⟨0, 0⟩
    (by decide)

theorem resolveStep_preserves_absent (cn vn : List String) (ctxVal : Value)
    (al : List Value) (x : String) (hx : cn.contains x = false)
    (st : ResolveSt) (p : Param)
    (h1 : dictMem st.kwargs_map x = false) (h2 : dictMem st.final_kwargs x = false) :
    dictMem (resolveStep cn vn ctxVal al st p).kwargs_map x = false
    ∧ dictMem (resolveStep cn vn ctxVal al st p).final_kwargs x = false := by
  unfold resolveStep
  by_cases hc : cn.contains p.name
  · have hpx : p.name ≠ x := by
      intro hh
      rw [hh, hx] at hc
      cases hc
    simp only [hc, if_true]
    cases p.kind with
    | positionalOnly => exact ⟨h1, h2⟩
    | positionalOrKeyword => exact ⟨h1, h2⟩
    | varPositional => exact ⟨h1, dictMem_dictSet_of_false _ _ _ _ hpx h2⟩
    | varKeyword => exact ⟨h1, dictMem_dictSet_of_false _ _ _ _ hpx h2⟩
    | keywordOnly => exact ⟨h1, dictMem_dictSet_of_false _ _ _ _ hpx h2⟩
  · simp only [hc, Bool.false_eq_true, if_false]
    by_cases h2' : vn.contains p.name
    · simp only [h2', if_true]
      split <;> exact ⟨h1, h2⟩
    · simp only [h2', Bool.false_eq_true, if_false]
      cases p.kind with
      | varPositional =>
          dsimp only
          split <;> exact ⟨h1, h2⟩
      | varKeyword =>
          dsimp only
          split
          · exact ⟨h1, h2⟩
          · exact ⟨rfl, dictMem_dictUpdate_of_false _ _ _ h2 h1⟩
      | keywordOnly =>
          dsimp only
          cases hg : dictGet st.kwargs_map p.name with
          | some v =>
              have hmem : dictMem st.kwargs_map p.name = true := by
                rw [dictMem_eq_isSome, hg]
                rfl
              have hpx : p.name ≠ x := by
                intro hh
                rw [hh, h1] at hmem
                cases hmem
              exact ⟨dictMem_dictPop_of_false _ _ _ h1,
                     dictMem_dictSet_of_false _ _ _ _ hpx h2⟩
          | none => exact ⟨h1, h2⟩
      | positionalOnly =>
          dsimp only
          cases hg : dictGet st.kwargs_map p.name with
          | some v =>
              have hmem : dictMem st.kwargs_map p.name = true := by
                rw [dictMem_eq_isSome, hg]
                rfl
              have hpx : p.name ≠ x := by
                intro hh
                rw [hh, h1] at hmem
                cases hmem
              exact ⟨dictMem_dictPop_of_false _ _ _ h1,
                     dictMem_dictSet_of_false _ _ _ _ hpx h2⟩
          | none => cases al.get? st.idx <;> exact ⟨h1, h2⟩
      | positionalOrKeyword =>
          dsimp only
          cases hg : dictGet st.kwargs_map p.name with
          | some v =>
              have hmem : dictMem st.kwargs_map p.name = true := by
                rw [dictMem_eq_isSome, hg]
                rfl
              have hpx : p.name ≠ x := by
                intro hh
                rw [hh, h1] at hmem
                cases hmem
              exact ⟨dictMem_dictPop_of_false _ _ _ h1,
                     dictMem_dictSet_of_false _ _ _ _ hpx h2⟩
          | none => cases al.get? st.idx <;> exact ⟨h1, h2⟩

theorem resolveLoop_absent (cn vn : List String) (ctxVal : Value) (al : List Value)
    (x : String) (hx : cn.contains x = false) (l : List Param) (st : ResolveSt)
    (h1 : dictMem st.kwargs_map x = false) (h2 : dictMem st.final_kwargs x = false) :
    dictMem ((l.foldl (resolveStep cn vn ctxVal al) st).kwargs_map) x = false
    ∧ dictMem ((l.foldl (resolveStep cn vn ctxVal al) st).final_kwargs) x = false := by
  induction l generalizing st with
  | nil => exact ⟨h1, h2⟩
  | cons p l ih =>
      obtain ⟨g1, g2⟩ := resolveStep_preserves_absent cn vn ctxVal al x hx st p h1 h2
      exact ih _ g1 g2

theorem recordVirtualStep_other (call : InvocationCall) (st : Dict Value)
    (w : VirtualParameter) (key : String) (hw : w.state_key ≠ some key) :
    dictGet (recordVirtualStep call st w) key = dictGet st key := by
  unfold recordVirtualStep
  cases hsk : w.state_key with
  | none => rfl
  | some k =>
      have hk : k ≠ key := by
        intro hh
        rw [hh] at hsk
        exact hw hsk
      by_cases he : k.isEmpty
      · simp [he]
      · simp [he, dictGet_dictSet_ne _ _ _ _ (Ne.symm hk)]

theorem recordVirtualState_untouched (post : List VirtualParameter)
    (call : InvocationCall) (st : Dict Value) (key : String)
    (hpost : ∀ w ∈ post, w.state_key ≠ some key) :
    dictGet (recordVirtualState post call st) key = dictGet st key := by
  induction post generalizing st with
  | nil => rfl
  | cons w post ih =>
      show dictGet (recordVirtualState post call (recordVirtualStep call st w)) key
        = dictGet st key
      rw [ih _ (fun y hy => hpost y (List.mem_cons_of_mem w hy))]
      exact recordVirtualStep_other call st w key (hpost w (List.mem_cons_self w post))

/-- C2: for a virtual option `v` registered with (truthy) state key `key`
that no later-registered virtual reuses, and recorded among the target's
virtual parameter names (disjoint from the hidden context names): the
resolution strips `v.name` from the kwargs forwarded to the original
function; and the adapter's state loop records under `key` the
caller-supplied keyword value when present (real values — not the `empty`
sentinel, which no caller can supply), else the registered default, with an
`empty` default stored as `None`. -/
theorem claim_virtual_non_forwarding_and_state
    (inv : Invocation) (alloc : CtxAlloc) (state : Dict Value)
    (pre post : List VirtualParameter) (v : VirtualParameter) (key : String)
    (hkey : v.state_key = some key) (hne : key.isEmpty = false)
    (hpost : ∀ w ∈ post, w.state_key ≠ some key)
    (hvn : v.name ∈ inv.target.virtualParamNames)
    (hcn : inv.target.contextParamNames.contains v.name = false) :
    dictMem (inv.resolve_call_arguments alloc).1.2 v.name = false
    ∧ (∀ supplied, dictGet inv.call.kwargs v.name = some supplied →
        supplied ≠ Value.empty →
        dictGet (recordVirtualState (pre ++ v :: post) inv.call state) key
          = some supplied)
    ∧ (dictMem inv.call.kwargs v.name = false →
        dictGet (recordVirtualState (pre ++ v :: post) inv.call state) key
          = some (if v.default_value = Value.empty then Value.vnone
                  else v.default_value)) := by
  have hrec : ∀ raw, (dictGet inv.call.kwargs v.name).getD v.default_value = raw →
      dictGet (recordVirtualState (pre ++ v :: post) inv.call state) key
        = some (if raw = Value.empty then Value.vnone else raw) := by
    intro raw hraw
    show dictGet (List.foldl (recordVirtualStep inv.call) state (pre ++ v :: post))
        key = _
    rw [List.foldl_append, List.foldl_cons]
    show dictGet (recordVirtualState post inv.call
        (recordVirtualStep inv.call (recordVirtualState pre inv.call state) v)) key
      = _
    rw [recordVirtualState_untouched post inv.call _ key hpost]
    unfold recordVirtualStep
    rw [hkey]
    simp only [hne, Bool.false_eq_true, if_false]
    rw [hraw]
    exact dictGet_dictSet_self _ _ _
  refine ⟨?_, ?_, ?_⟩
  · show dictMem
      (let st := List.foldl
          (resolveStep inv.target.contextParamNames inv.target.virtualParamNames
            ((inv.command_context alloc).1) inv.call.args)
          { idx := 0,
            kwargs_map := List.foldl (fun m vn => dictPop m vn) inv.call.kwargs
              inv.target.virtualParamNames,
            final_args := [], final_kwargs := [] }
          (inv.target.originalSig.getD inv.target.signature)
        if st.kwargs_map.isEmpty = true then st.final_kwargs
        else dictUpdate st.final_kwargs st.kwargs_map) v.name = false
    obtain ⟨g1, g2⟩ := resolveLoop_absent inv.target.contextParamNames
      inv.target.virtualParamNames ((inv.command_context alloc).1) inv.call.args
      v.name hcn (inv.target.originalSig.getD inv.target.signature)
      { idx := 0,
        kwargs_map := List.foldl (fun m vn => dictPop m vn) inv.call.kwargs
          inv.target.virtualParamNames,
        final_args := [], final_kwargs := [] }
      (dictMem_stripFold_self inv.target.virtualParamNames inv.call.kwargs v.name hvn)
      rfl
    dsimp only
    split
    · exact g2
    · exact dictMem_dictUpdate_of_false _ _ _ g2 g1
  · intro supplied hg hsup
    have hr := hrec supplied (by rw [hg]; rfl)
    rw [hr, if_neg hsup]
  · intro hmem
    have hg : dictGet inv.call.kwargs v.name = none :=
      dictGet_eq_none_of_not_mem _ _ hmem
    exact hrec _ (by rw [hg]; rfl)

theorem claim_virtual_non_forwarding_and_state_witness :
    dictMem (mixedKindsInv.resolve_call_arguments ⟨0, 0⟩).1.2 "virt" = false
    ∧ (∀ supplied, dictGet mixedKindsInv.call.kwargs "virt" = some supplied →
        supplied ≠ Value.empty →
        dictGet (recordVirtualState ([] ++ virtSpec :: []) mixedKindsInv.call [])
          "virtual:virt" = some supplied)
    ∧ (dictMem mixedKindsInv.call.kwargs "virt" = false →
        dictGet (recordVirtualState ([] ++ virtSpec :: []) mixedKindsInv.call [])
          "virtual:virt"
          = some (if virtSpec.default_value = Value.empty then Value.vnone
                  else virtSpec.default_value)) :=
  claim_virtual_non_forwarding_and_state mixedKindsInv ⟨0, 0⟩ [] [] [] virtSpec
    "virtual:virt" rfl rfl (by intro w hw; cases hw) (by decide) (by decide)

theorem hookEnsureParams_error (pt : String) (issub : String → String → Bool)
    (pf : ParserFactory) (l : List Param) (p : Param)
    (hfind : l.find? (fun q => hookMatches pt issub q
        && ((TyperAnnot.ofAnnot q.annot).find_parameter_info_arg).isNone) = some p) :
    hookEnsureParams pt issub none pf l = .error (p.name, pt) := by
  induction l with
  | nil => cases hfind
  | cons q l ih =>
      by_cases hq : (hookMatches pt issub q
          && ((TyperAnnot.ofAnnot q.annot).find_parameter_info_arg).isNone) = true
      · simp only [List.find?_cons, hq, if_true] at hfind
        injection hfind with hp
        have hq' : hookMatches pt issub q = true
            ∧ ((TyperAnnot.ofAnnot q.annot).find_parameter_info_arg).isNone = true := by
          simpa using hq
        obtain ⟨hm, hn⟩ := hq'
        have hn' : (TyperAnnot.ofAnnot q.annot).find_parameter_info_arg = none :=
          Option.isNone_iff_eq_none.mp hn
        subst hp
        unfold hookEnsureParams
        simp [hm, hn']
      · simp only [List.find?_cons, hq, if_false, Bool.false_eq_true] at hfind
        unfold hookEnsureParams
        by_cases hm : hookMatches pt issub q
        · cases ho : (TyperAnnot.ofAnnot q.annot).find_parameter_info_arg with
          | none => exact absurd (by simp [hm, ho]) hq
          | some o => simp [hm, ho, ih hfind, Except.map]
        · simp [hm, ih hfind, Except.map]

/-- C7: a parameter-type hook registered with no option factory does not
fail at registration (it only appends the hook), but applying the created
hook at build time fails with a configuration error naming the first
matching parameter that carries no option-descriptor metadata, together
with the target type. -/
theorem claim_hook_missing_option_error (param_type : String)
    (issub : String → String → Bool) (parser_factory : ParserFactory)
    (func : Target) (p : Param) (pl : Pipeline)
    (hfind : func.signature.find? (fun q => hookMatches param_type issub q
        && ((TyperAnnot.ofAnnot q.annot).find_parameter_info_arg).isNone) = some p) :
    _create_param_type_hook param_type issub none parser_factory func
      = .error (p.name, param_type)
    ∧ (pl.register_param_type param_type issub none parser_factory).param_hooks.length
        = pl.param_hooks.length + 1 := by
  constructor
  · unfold _create_param_type_hook
    rw [hookEnsureParams_error param_type issub parser_factory func.signature p hfind]
  · simp [Pipeline.register_param_type]

theorem claim_hook_missing_option_error_witness :
    _create_param_type_hook "Logger" (fun _ _ => false) none .noneF
        { signature := [{ name := "log", kind := .positionalOrKeyword,
                          annot := .cls "Logger", default := .empty }],
          originalSig := none, runtimeSig := none,
          contextParamNames := [], virtualParamNames := [] }
      = .error ("log", "Logger")
    ∧ ((⟨[], []⟩ : Pipeline).register_param_type "Logger" (fun _ _ => false) none
        .noneF).param_hooks.length
        = (⟨[], []⟩ : Pipeline).param_hooks.length + 1 :=
  claim_hook_missing_option_error "Logger" (fun _ _ => false) .noneF
    { signature := [{ name := "log", kind := .positionalOrKeyword,
                      annot := .cls "Logger", default := .empty }],
      originalSig := none, runtimeSig := none,
      contextParamNames := [], virtualParamNames := [] }
    { name := "log", kind := .positionalOrKeyword,
      annot := .cls "Logger", default := .empty }
    ⟨[], []⟩ (by decide)
